import Mathlib

/-!
Verification of the `URLService` registry and its validation rules.

The registry (`src/unnamed/part_000`, class `URLService`) keeps two JS `Map`s:
`urls : id → ShortenedURL` and `shortCodeToId : shortCode → id`.  A JS `Map`
is modelled as an association list in insertion order; `set` replaces the
value in place when the key is present (keeping its position) and appends
otherwise, matching JS `Map.prototype.set` semantics.  Timestamps (`Date`)
are modelled as milliseconds since the epoch (`Nat`); `Date` comparison is
numeric comparison of those values.  `Date.now()` / `Math.random()` inputs
are passed in explicitly (`now`, `id`, `clickId`, `rand`), making every
operation a pure function of the state and these ambient inputs.
-/

namespace UrlShortener

/-- `ClickEvent` from `src/src/types/index.ts`. -/
structure ClickEvent where
  id : String
  timestamp : Nat
  userAgent : String
  ipAddress : String
  referrer : String
  location : String
deriving DecidableEq, Repr

/-- `ShortenedURL` from `src/src/types/index.ts`. -/
structure ShortenedURL where
  id : String
  originalUrl : String
  shortCode : String
  shortUrl : String
  createdAt : Nat
  expiresAt : Nat
  isActive : Bool
  clickCount : Nat
  clicks : List ClickEvent
deriving DecidableEq, Repr

/-- `ValidationResult` from `src/src/types/index.ts`. -/
structure ValidationResult where
  isValid : Bool
  errors : List String
deriving DecidableEq, Repr

/-- The two private maps of `URLService` (`urls`, `shortCodeToId`). -/
structure URLServiceState where
  urls : List (String × ShortenedURL)
  shortCodeToId : List (String × String)
deriving DecidableEq, Repr

/-- The state of a freshly constructed `URLService` with empty storage. -/
def emptyState : URLServiceState := ⟨[], []⟩

/-- JS `Map.prototype.get`: the value stored at `k` (first and, since `mapSet`
keeps keys unique, only binding). -/
def mapGet (k : String) : List (String × α) → Option α
  | [] => none
  | (k', v) :: rest => if k' = k then some v else mapGet k rest

/-- JS `Map.prototype.has`. -/
def mapHas (k : String) (m : List (String × α)) : Bool :=
  (mapGet k m).isSome

/-- JS `Map.prototype.set`: replace in place if the key exists, else append. -/
def mapSet (k : String) (v : α) : List (String × α) → List (String × α)
  | [] => [(k, v)]
  | (k', v') :: rest => if k' = k then (k, v) :: rest else (k', v') :: mapSet k v rest

/-- JS `Map.prototype.delete` (the key occurs at most once). -/
def mapDelete (k : String) (m : List (String × α)) : List (String × α) :=
  m.filter (fun p => p.1 ≠ k)

/-- The alphabet of `generateShortCode`. -/
def charsString : String :=
  "abcdefghijklmnopqrstuvwxyzABCDEFGHIJKLMNOPQRSTUVWXYZ0123456789"

/-- JS `String.prototype.charAt`: one-character string, or `""` out of range. -/
def charAt (s : String) (i : Nat) : String :=
  match s.data.get? i with
  | some c => String.singleton c
  | none => ""

/-- `URLService.generateShortCode`: six draws from the 62-character alphabet.
`rand i` stands for the `i`-th value of `Math.floor(Math.random() * chars.length)`,
which always lies in `[0, 61]`. -/
def generateShortCode (rand : Nat → Nat) : String :=
  ((List.range 6).map (fun i => charAt charsString (rand i))).foldl (· ++ ·) ""

/-- The short-code resolution in `URLService.shortenUrl`:
`customShortCode || this.generateShortCode()`.  JS `||` falls through on the
falsy values `undefined` and `""`. -/
def resolveShortCode (customShortCode : Option String) (rand : Nat → Nat) : String :=
  match customShortCode with
  | some c => if c = "" then generateShortCode rand else c
  | none => generateShortCode rand

/-- The two exceptions `shortenUrl` can throw:
`'Short code already exists'` and `'Maximum of 5 concurrent URLs allowed'`. -/
inductive ShortenError where
  | duplicateShortCode
  | concurrencyLimitExceeded
deriving DecidableEq, Repr

/-- `URLService.shortenUrl`.  `now` is `Date.now()`, `id` the generated record
id, `rand` the random source for `generateShortCode`, `origin` is
`window.location.origin`. -/
def shortenUrl (s : URLServiceState) (now : Nat) (id : String) (rand : Nat → Nat)
    (origin : String) (originalUrl : String) (customShortCode : Option String)
    (expiryMinutes : Nat) : Except ShortenError (ShortenedURL × URLServiceState) :=
  let shortCode := resolveShortCode customShortCode rand
  if mapHas shortCode s.shortCodeToId then
    .error .duplicateShortCode
  else
    let activeUrls := (s.urls.map Prod.snd).filter (fun url => url.isActive)
    if activeUrls.length ≥ 5 then
      .error .concurrencyLimitExceeded
    else
      let expiresAt := now + expiryMinutes * 60 * 1000
      let shortenedUrl : ShortenedURL :=
        { id := id
          originalUrl := originalUrl
          shortCode := shortCode
          shortUrl := origin ++ "/" ++ shortCode
          createdAt := now
          expiresAt := expiresAt
          isActive := true
          clickCount := 0
          clicks := [] }
      .ok (shortenedUrl,
        { urls := mapSet id shortenedUrl s.urls
          shortCodeToId := mapSet shortCode id s.shortCodeToId })

/-- `URLService.getUrlByShortCode`. -/
def getUrlByShortCode (s : URLServiceState) (now : Nat) (shortCode : String) :
    Option ShortenedURL :=
  match mapGet shortCode s.shortCodeToId with
  | none => none
  | some id =>
    match mapGet id s.urls with
    | none => none
    | some url =>
      if url.isActive = false ∨ url.expiresAt < now then none else some url

/-- `URLService.recordClick`.  The source mutates the record object returned by
`getUrlByShortCode`, which is the very object stored in `urls`; here the record
stored under its id is updated.  `clickId` is the generated click-event id. -/
def recordClick (s : URLServiceState) (now : Nat) (clickId : String)
    (shortCode userAgent referrer : String) : Bool × URLServiceState :=
  match mapGet shortCode s.shortCodeToId with
  | none => (false, s)
  | some id =>
    match mapGet id s.urls with
    | none => (false, s)
    | some url =>
      if url.isActive = false ∨ url.expiresAt < now then (false, s)
      else
        let clickEvent : ClickEvent :=
          { id := clickId
            timestamp := now
            userAgent := userAgent
            ipAddress := "xxx.xxx.xxx.xxx"
            referrer := referrer
            location := "Hyderabad/Secunderabad" }
        let url' := { url with
          clicks := url.clicks ++ [clickEvent]
          clickCount := url.clickCount + 1 }
        (true, { s with urls := mapSet id url' s.urls })

/-- The per-record body of the loop in `URLService.cleanupExpiredUrls`. -/
def expireFlip (now : Nat) (url : ShortenedURL) : ShortenedURL :=
  if url.expiresAt < now ∧ url.isActive then { url with isActive := false } else url

/-- `URLService.cleanupExpiredUrls` (one tick of the background sweep; the
`saveToStorage`/logging side effects carry no registry state). -/
def cleanupExpiredUrls (s : URLServiceState) (now : Nat) : URLServiceState :=
  { s with urls := s.urls.map (fun p => (p.1, expireFlip now p.2)) }

/-- `URLService.getAllUrls`: all records sorted by `createdAt` descending. -/
def getAllUrls (s : URLServiceState) : List ShortenedURL :=
  (s.urls.map Prod.snd).mergeSort (fun a b => decide (b.createdAt ≤ a.createdAt))

/-- `URLService.deleteUrl`. -/
def deleteUrl (s : URLServiceState) (id : String) : Bool × URLServiceState :=
  match mapGet id s.urls with
  | none => (false, s)
  | some url =>
    (true,
      { urls := mapDelete id s.urls
        shortCodeToId := mapDelete url.shortCode s.shortCodeToId })

/-- The two-map composite lookup underlying `getUrlByShortCode`:
the record the code maps to, ignoring activity and expiry. -/
def codeRecord (s : URLServiceState) (shortCode : String) : Option ShortenedURL :=
  (mapGet shortCode s.shortCodeToId).bind (fun id => mapGet id s.urls)

/-- Number of records with `isActive == true`, as counted by the admission
check in `shortenUrl`. -/
def activeCount (s : URLServiceState) : Nat :=
  ((s.urls.map Prod.snd).filter (fun url => url.isActive)).length

/-- Number of records that are active in the glossary sense at time `t`:
`isActive == true` and `expiresAt` in the future. -/
def activeUnexpiredCount (s : URLServiceState) (t : Nat) : Nat :=
  ((s.urls.map Prod.snd).filter (fun url => url.isActive ∧ t < url.expiresAt)).length

/-! ### Validation (`src/src/utils/validation.ts`) -/

/-- JS whitespace (ASCII range) as trimmed by `String.prototype.trim`. -/
def jsWhitespace (c : Char) : Bool :=
  c = ' ' ∨ c = '\t' ∨ c = '\n' ∨ c = '\r' ∨ c = '\x0b' ∨ c = '\x0c'

/-- JS `String.prototype.trim`: strip whitespace from both ends. -/
def jsTrim (s : String) : String :=
  String.mk (((s.data.dropWhile jsWhitespace).reverse.dropWhile jsWhitespace).reverse)

/-- JS `String.prototype.toLowerCase` (ASCII case mapping). -/
def jsToLower (s : String) : String :=
  String.mk (s.data.map Char.toLower)

/-- Would-be scheme characters after the leading letter: ASCII letters,
digits, `+`, `-`, `.` (RFC 3986 / WHATWG scheme grammar). -/
def schemeCharOk (c : Char) : Bool :=
  c.isAlpha ∨ c.isDigit ∨ c = '+' ∨ c = '-' ∨ c = '.'

/-- Modelled from the spec: the platform URL parser (`new URL(url)`) used by
`validateUrl`, which is a browser builtin and not part of the repository.  The
spec requires the string to "parse as an absolute URL"; an absolute URL starts
with a scheme — an ASCII letter followed by ASCII letters, digits, `+`, `-` or
`.` — terminated by `:`.  Returns `urlObj.protocol` (the lowercased scheme with
its trailing colon) when such a scheme is present, and `none` when the
constructor throws.  Leading and trailing whitespace is stripped by the
platform parser before scheme parsing. -/
def urlProtocol (url : String) : Option String :=
  let t := jsTrim url
  let pre := t.data.takeWhile (fun c => c ≠ ':')
  if pre.length = t.data.length then
    none
  else
    match pre with
    | [] => none
    | c :: rest =>
      if c.isAlpha ∧ rest.all schemeCharOk then
        some (String.mk (pre.map Char.toLower) ++ ":")
      else
        none

/-- `pat.isPrefixOf (s.drop i)` for some `i`: `pat` occurs in `s`. -/
def listHasInfix (pat s : List Char) : Bool :=
  (List.range (s.length + 1)).any (fun i => pat.isPrefixOf (s.drop i))

/-- Case-insensitive substring test, the effect of `/pat/i.test(s)` for a
pattern that is a plain lowercase literal. -/
def containsCI (s pat : String) : Bool :=
  listHasInfix pat.data (s.data.map Char.toLower)

/-- The `maliciousPatterns` blocklist in `validateUrl` (each regex is a plain
case-insensitive literal). -/
def maliciousPatterns : List String :=
  ["javascript:", "data:", "vbscript:", "file:"]

/-- `validateUrl` from `src/src/utils/validation.ts`.  The protocol check and
the malicious-pattern check sit inside the `try` block: when `new URL(url)`
throws, only `'Invalid URL format'` is pushed. -/
def validateUrl (url : String) : ValidationResult :=
  let errors :=
    if jsTrim url = "" then
      ["URL is required"]
    else
      match urlProtocol url with
      | none => ["Invalid URL format"]
      | some protocol =>
        (if ["http:", "https:"].contains protocol then []
         else ["URL must use HTTP or HTTPS protocol"]) ++
        (if maliciousPatterns.any (fun pat => containsCI url pat) then
          ["URL contains potentially malicious content"]
         else [])
  { isValid := errors.length == 0, errors := errors }

/-- The character class `[a-zA-Z0-9_-]`. -/
def shortCodeCharOk (c : Char) : Bool :=
  c.isAlpha ∨ c.isDigit ∨ c = '_' ∨ c = '-'

/-- The `reservedWords` list in `validateShortCode`. -/
def reservedWords : List String :=
  ["admin", "api", "www", "app", "stats", "analytics"]

/-- `validateShortCode` from `src/src/utils/validation.ts`.  All checks are
guarded by `if (shortCode.trim())`, i.e. they run only when the code is not
blank; the checks themselves use the original, untrimmed string.  The regex
`/^[a-zA-Z0-9_-]+$/` matches exactly the nonempty strings over that class. -/
def validateShortCode (shortCode : String) : ValidationResult :=
  let errors :=
    if jsTrim shortCode = "" then []
    else
      (if shortCode.length < 3 ∨ shortCode.length > 20 then
        ["Short code must be between 3 and 20 characters"]
       else []) ++
      (if shortCode.data ≠ [] ∧ shortCode.data.all shortCodeCharOk then []
       else ["Short code can only contain letters, numbers, hyphens, and underscores"]) ++
      (if reservedWords.contains (jsToLower shortCode) then
        ["Short code cannot use reserved words"]
       else [])
  { isValid := errors.length == 0, errors := errors }

/-! ### Operation traces

`Op` captures one invocation of a mutating public operation together with its
ambient inputs (clock readings, generated ids, random draws); `applyOp` is the
state it leaves behind.  A `shortenUrl` call that throws leaves the state
untouched (the exception propagates before any insertion). -/

inductive Op where
  | shorten (now : Nat) (id : String) (rand : Nat → Nat) (origin originalUrl : String)
      (customShortCode : Option String) (expiryMinutes : Nat)
  | click (now : Nat) (clickId shortCode userAgent referrer : String)
  | sweep (now : Nat)
  | remove (id : String)

def applyOp (s : URLServiceState) : Op → URLServiceState
  | .shorten now id rand origin originalUrl customShortCode expiryMinutes =>
    match shortenUrl s now id rand origin originalUrl customShortCode expiryMinutes with
    | .ok (_, s') => s'
    | .error _ => s
  | .click now clickId shortCode userAgent referrer =>
    (recordClick s now clickId shortCode userAgent referrer).2
  | .sweep now => cleanupExpiredUrls s now
  | .remove id => (deleteUrl s id).2

def runOps (ops : List Op) (s : URLServiceState) : URLServiceState :=
  ops.foldl applyOp s

/-! ### Map lemmas -/

theorem mapGet_mapSet_self (k : String) (v : α) (m : List (String × α)) :
    mapGet k (mapSet k v m) = some v := by
  induction m with
  | nil => simp [mapSet, mapGet]
  | cons p rest ih =>
    obtain ⟨k', v'⟩ := p
    by_cases hk : k' = k
    · simp [mapSet, hk, mapGet]
    · simp [mapSet, hk, mapGet, ih]

theorem mapGet_map_snd (k : String) (f : α → β) (m : List (String × α)) :
    mapGet k (m.map (fun p => (p.1, f p.2))) = (mapGet k m).map f := by
  induction m with
  | nil => simp [mapGet]
  | cons p rest ih =>
    obtain ⟨k', v'⟩ := p
    by_cases hk : k' = k
    · simp [mapGet, hk]
    · simp [mapGet, hk, ih]

/-- `mapSet` adds at most one record satisfying `p` to the stored values. -/
theorem countP_mapSet_le (p : α → Bool) (k : String) (v : α) (m : List (String × α)) :
    ((mapSet k v m).map Prod.snd).countP p ≤ (m.map Prod.snd).countP p + 1 := by
  induction m with
  | nil => simp [mapSet, List.countP_cons]; split <;> simp
  | cons q rest ih =>
    obtain ⟨k', v'⟩ := q
    by_cases hk : k' = k
    · simp only [mapSet, if_pos hk, List.map_cons, List.countP_cons]
      split <;> split <;> omega
    · simp only [mapSet, if_neg hk, List.map_cons, List.countP_cons]
      omega

/-- Overwriting the record stored at an existing key with one that satisfies
`p` the same way leaves the count of values satisfying `p` unchanged. -/
theorem countP_mapSet_congr (p : α → Bool) (k : String) (v v' : α)
    (m : List (String × α)) (hget : mapGet k m = some v) (hp : p v' = p v) :
    ((mapSet k v' m).map Prod.snd).countP p = (m.map Prod.snd).countP p := by
  induction m with
  | nil => simp [mapGet] at hget
  | cons q rest ih =>
    obtain ⟨k', w⟩ := q
    by_cases hk : k' = k
    · simp only [mapGet, if_pos hk, Option.some.injEq] at hget
      subst hget
      simp only [mapSet, if_pos hk, List.map_cons, List.countP_cons, hp]
    · simp only [mapGet, if_neg hk] at hget
      simp only [mapSet, if_neg hk, List.map_cons, List.countP_cons, ih hget]

theorem countP_mapDelete_le (p : α → Bool) (k : String) (m : List (String × α)) :
    ((mapDelete k m).map Prod.snd).countP p ≤ (m.map Prod.snd).countP p :=
  List.Sublist.countP_le p ((List.filter_sublist m).map Prod.snd)

theorem mapGet_mem {k : String} {v : α} {m : List (String × α)}
    (h : mapGet k m = some v) : (k, v) ∈ m := by
  induction m with
  | nil => simp [mapGet] at h
  | cons p rest ih =>
    obtain ⟨k', v'⟩ := p
    by_cases hk : k' = k
    · simp only [mapGet, if_pos hk, Option.some.injEq] at h
      simp [hk, h]
    · simp only [mapGet, if_neg hk] at h
      exact List.mem_cons_of_mem _ (ih h)

/-! ### Counting active records -/

theorem activeCount_eq_countP (s : URLServiceState) :
    activeCount s = (s.urls.map Prod.snd).countP (fun url => url.isActive) := by
  simp [activeCount, List.countP_eq_length_filter]

theorem activeUnexpiredCount_le_activeCount (s : URLServiceState) (t : Nat) :
    activeUnexpiredCount s t ≤ activeCount s := by
  rw [activeCount_eq_countP]
  rw [show activeUnexpiredCount s t
      = (s.urls.map Prod.snd).countP (fun url => decide (url.isActive = true ∧ t < url.expiresAt))
    from by simp [activeUnexpiredCount, List.countP_eq_length_filter]]
  exact List.countP_mono_left (fun u _ h => by
    simp only [decide_eq_true_eq] at h
    simp [h.1])

theorem activeCount_shortenUrl_ok {s : URLServiceState} {now : Nat} {id : String}
    {rand : Nat → Nat} {origin originalUrl : String} {customShortCode : Option String}
    {expiryMinutes : Nat} {rec : ShortenedURL} {s' : URLServiceState}
    (h : shortenUrl s now id rand origin originalUrl customShortCode expiryMinutes
      = .ok (rec, s')) : activeCount s' ≤ 5 := by
  simp only [shortenUrl] at h
  split at h
  · exact absurd h (by simp)
  · split at h
    · exact absurd h (by simp)
    · rename_i hcap
      simp only [Except.ok.injEq, Prod.mk.injEq] at h
      obtain ⟨-, hs'⟩ := h
      subst hs'
      have hlt : (s.urls.map Prod.snd).countP (fun url => url.isActive) < 5 := by
        rw [List.countP_eq_length_filter]
        omega
      calc activeCount _ ≤ (s.urls.map Prod.snd).countP (fun url => url.isActive) + 1 := by
            rw [activeCount_eq_countP]
            exact countP_mapSet_le _ _ _ _
        _ ≤ 5 := by omega

theorem activeCount_recordClick (s : URLServiceState) (now : Nat)
    (clickId shortCode userAgent referrer : String) :
    activeCount (recordClick s now clickId shortCode userAgent referrer).2 = activeCount s := by
  cases hsc : mapGet shortCode s.shortCodeToId with
  | none => simp [recordClick, hsc]
  | some id0 =>
    cases hurl : mapGet id0 s.urls with
    | none => simp [recordClick, hsc, hurl]
    | some url =>
      by_cases hact : url.isActive = false ∨ url.expiresAt < now
      · simp [recordClick, hsc, hurl, hact]
      · simp only [recordClick, hsc, hurl, if_neg hact]
        simp only [activeCount_eq_countP]
        refine countP_mapSet_congr _ id0 url _ s.urls hurl ?_
        rfl

theorem activeCount_cleanup_le (s : URLServiceState) (now : Nat) :
    activeCount (cleanupExpiredUrls s now) ≤ activeCount s := by
  simp only [activeCount_eq_countP, cleanupExpiredUrls]
  rw [show (s.urls.map (fun p => (p.1, expireFlip now p.2))).map Prod.snd
      = (s.urls.map Prod.snd).map (expireFlip now) from by simp]
  rw [List.countP_map]
  exact List.countP_mono_left (fun u _ h => by
    simp only [Function.comp] at h
    unfold expireFlip at h
    split at h
    · simp at h
    · exact h)

theorem activeCount_deleteUrl_le (s : URLServiceState) (id : String) :
    activeCount (deleteUrl s id).2 ≤ activeCount s := by
  unfold deleteUrl
  split
  · exact Nat.le_refl _
  · simp only [activeCount_eq_countP]
    exact countP_mapDelete_le _ _ _

theorem activeCount_applyOp_le {s : URLServiceState} (op : Op)
    (h : activeCount s ≤ 5) : activeCount (applyOp s op) ≤ 5 := by
  cases op with
  | shorten now id rand origin originalUrl customShortCode expiryMinutes =>
    simp only [applyOp]
    split
    · exact activeCount_shortenUrl_ok (by assumption)
    · exact h
  | click now clickId shortCode userAgent referrer =>
    simp only [applyOp]
    rw [activeCount_recordClick]
    exact h
  | sweep now =>
    exact Nat.le_trans (activeCount_cleanup_le s now) h
  | remove id =>
    exact Nat.le_trans (activeCount_deleteUrl_le s id) h

theorem activeCount_runOps_le (ops : List Op) :
    ∀ s : URLServiceState, activeCount s ≤ 5 → activeCount (runOps ops s) ≤ 5 := by
  induction ops with
  | nil => exact fun s h => h
  | cons op rest ih =>
    intro s h
    exact ih (applyOp s op) (activeCount_applyOp_le op h)

/-! ### Claim theorems -/

/-- C1: whenever `shortenUrl` succeeds (valid input: available short code and
fewer than 5 active records), looking the assigned code up immediately
afterwards returns a record whose `originalUrl` is exactly the submitted URL
and whose `shortCode` is the just-assigned code. -/
theorem shorten_then_lookup (s : URLServiceState) (now : Nat) (id : String)
    (rand : Nat → Nat) (origin originalUrl : String) (customShortCode : Option String)
    (expiryMinutes : Nat) (rec : ShortenedURL) (s' : URLServiceState)
    (h : shortenUrl s now id rand origin originalUrl customShortCode expiryMinutes
      = .ok (rec, s')) :
    getUrlByShortCode s' now rec.shortCode = some rec ∧
    rec.originalUrl = originalUrl ∧
    rec.shortCode = resolveShortCode customShortCode rand := by
  simp only [shortenUrl] at h
  split at h
  · exact absurd h (by simp)
  · split at h
    · exact absurd h (by simp)
    · simp only [Except.ok.injEq, Prod.mk.injEq] at h
      obtain ⟨hrec, hs'⟩ := h
      subst hs'
      subst hrec
      refine ⟨?_, rfl, rfl⟩
      have hexp : ¬ (now + expiryMinutes * 60 * 1000 < now) := by omega
      simp [getUrlByShortCode, mapGet_mapSet_self, hexp]

def c1Rec : ShortenedURL :=
  { id := "id1", originalUrl := "https://example.com", shortCode := "abc",
    shortUrl := "http://o/abc", createdAt := 0, expiresAt := 1800000,
    isActive := true, clickCount := 0, clicks := [] }

def c1State : URLServiceState :=
  { urls := [("id1", c1Rec)], shortCodeToId := [("abc", "id1")] }

/-- Witness for C1: a concrete successful `shortenUrl` call followed by the
lookup of its assigned code. -/
theorem shorten_then_lookup_witness :
    getUrlByShortCode c1State 0 c1Rec.shortCode = some c1Rec ∧
    c1Rec.originalUrl = "https://example.com" ∧
    c1Rec.shortCode = resolveShortCode (some "abc") (fun _ => 0) :=
  shorten_then_lookup emptyState 0 "id1" (fun _ => 0) "http://o" "https://example.com"
    (some "abc") 30 c1Rec c1State (by rfl)

/-- C2: (1) after any sequence of operations starting from the empty registry
(`shortenUrl` calls that throw leave the state unchanged, i.e. only calls that
passed the admission check create records), at most 5 records have
`isActive == true` and `expiresAt` in the future, at any time `t`; (2) whenever
the count of currently-active (active and unexpired) records is already ≥ 5
and the resolved code is available, `shortenUrl` fails with
`concurrencyLimitExceeded` — the check precedes record creation, an `error`
result carrying no new record or state. -/
theorem active_cap_invariant :
    (∀ (ops : List Op) (t : Nat), activeUnexpiredCount (runOps ops emptyState) t ≤ 5) ∧
    (∀ (s : URLServiceState) (now : Nat) (id : String) (rand : Nat → Nat)
      (origin originalUrl : String) (customShortCode : Option String) (expiryMinutes : Nat),
      mapHas (resolveShortCode customShortCode rand) s.shortCodeToId = false →
      5 ≤ activeUnexpiredCount s now →
      shortenUrl s now id rand origin originalUrl customShortCode expiryMinutes
        = .error .concurrencyLimitExceeded) := by
  constructor
  · intro ops t
    exact Nat.le_trans (activeUnexpiredCount_le_activeCount _ t)
      (activeCount_runOps_le ops emptyState (by decide))
  · intro s now id rand origin originalUrl customShortCode expiryMinutes hdup hcount
    have hac : 5 ≤ activeCount s :=
      Nat.le_trans hcount (activeUnexpiredCount_le_activeCount s now)
    have hge : ((s.urls.map Prod.snd).filter (fun url => url.isActive)).length ≥ 5 := hac
    simp [shortenUrl, hdup, hge]

def mkActiveRec (id code : String) : ShortenedURL :=
  { id := id, originalUrl := "https://example.com", shortCode := code,
    shortUrl := "o/" ++ code, createdAt := 0, expiresAt := 100,
    isActive := true, clickCount := 0, clicks := [] }

def fiveActiveState : URLServiceState :=
  { urls := [("i1", mkActiveRec "i1" "c1"), ("i2", mkActiveRec "i2" "c2"),
             ("i3", mkActiveRec "i3" "c3"), ("i4", mkActiveRec "i4" "c4"),
             ("i5", mkActiveRec "i5" "c5")],
    shortCodeToId := [("c1", "i1"), ("c2", "i2"), ("c3", "i3"), ("c4", "i4"), ("c5", "i5")] }

/-- Witness for C2: the invariant after one concrete `shortenUrl`, and the
admission failure on a concrete registry holding 5 active unexpired records. -/
theorem active_cap_invariant_witness :
    activeUnexpiredCount
      (runOps [.shorten 0 "id1" (fun _ => 0) "o" "https://example.com" (some "abc") 30]
        emptyState) 0 ≤ 5 ∧
    shortenUrl fiveActiveState 0 "i6" (fun _ => 0) "o" "https://example.com" (some "c6") 30
      = .error .concurrencyLimitExceeded :=
  ⟨active_cap_invariant.1 [.shorten 0 "id1" (fun _ => 0) "o" "https://example.com" (some "abc") 30] 0,
   active_cap_invariant.2 fiveActiveState 0 "i6" (fun _ => 0) "o" "https://example.com"
     (some "c6") 30 (by decide) (by decide)⟩

/-- C4: whenever the resolved short code (custom or generated, compared
case-sensitively by string-keyed map lookup) is already bound in
`shortCodeToId`, `shortenUrl` throws `duplicateShortCode` and, as a
thrown-before-insertion failure, leaves the registry exactly as it was. -/
theorem duplicate_code_rejected (s : URLServiceState) (now : Nat) (id : String)
    (rand : Nat → Nat) (origin originalUrl : String) (customShortCode : Option String)
    (expiryMinutes : Nat)
    (hdup : mapHas (resolveShortCode customShortCode rand) s.shortCodeToId = true) :
    shortenUrl s now id rand origin originalUrl customShortCode expiryMinutes
      = .error .duplicateShortCode ∧
    applyOp s (.shorten now id rand origin originalUrl customShortCode expiryMinutes) = s := by
  have h1 : shortenUrl s now id rand origin originalUrl customShortCode expiryMinutes
      = .error .duplicateShortCode := by
    simp [shortenUrl, hdup]
  exact ⟨h1, by simp [applyOp, h1]⟩

def scenarioBRec : ShortenedURL :=
  { id := "id1", originalUrl := "https://x.com", shortCode := "abc",
    shortUrl := "http://o/abc", createdAt := 0, expiresAt := 1800000,
    isActive := true, clickCount := 0, clicks := [] }

def scenarioBState : URLServiceState :=
  { urls := [("id1", scenarioBRec)], shortCodeToId := [("abc", "id1")] }

/-- Witness for C4 (Scenario B): `shorten("https://x.com", "abc", 30)` succeeds,
then `shorten("https://y.com", "abc", 30)` fails with `duplicateShortCode` and
changes nothing. -/
theorem duplicate_code_rejected_witness :
    shortenUrl emptyState 0 "id1" (fun _ => 0) "http://o" "https://x.com" (some "abc") 30
      = .ok (scenarioBRec, scenarioBState) ∧
    shortenUrl scenarioBState 1000 "id2" (fun _ => 0) "http://o" "https://y.com" (some "abc") 30
      = .error .duplicateShortCode ∧
    applyOp scenarioBState
      (.shorten 1000 "id2" (fun _ => 0) "http://o" "https://y.com" (some "abc") 30)
      = scenarioBState :=
  ⟨by rfl,
   (duplicate_code_rejected scenarioBState 1000 "id2" (fun _ => 0) "http://o" "https://y.com"
     (some "abc") 30 (by decide)).1,
   (duplicate_code_rejected scenarioBState 1000 "id2" (fun _ => 0) "http://o" "https://y.com"
     (some "abc") 30 (by decide)).2⟩

/-- C3: `getUrlByShortCode` returns `none` exactly when the code maps to no
record through the two indexes, or the mapped record is inactive, or its
`expiresAt` is strictly in the past — expiry is enforced at read time from the
`now` argument alone, independent of any sweep; otherwise it returns exactly
the mapped record. -/
theorem lookup_absent_characterization (s : URLServiceState) (now : Nat) (code : String) :
    (getUrlByShortCode s now code = none ↔
      codeRecord s code = none ∨
        ∃ url, codeRecord s code = some url ∧
          (url.isActive = false ∨ url.expiresAt < now)) ∧
    (∀ url, codeRecord s code = some url → url.isActive = true →
      ¬ url.expiresAt < now → getUrlByShortCode s now code = some url) := by
  cases hsc : mapGet code s.shortCodeToId with
  | none => simp [getUrlByShortCode, codeRecord, hsc]
  | some id0 =>
    cases hurl : mapGet id0 s.urls with
    | none => simp [getUrlByShortCode, codeRecord, hsc, hurl]
    | some url =>
      by_cases hact : url.isActive = false ∨ url.expiresAt < now
      · constructor
        · simp [getUrlByShortCode, codeRecord, hsc, hurl, hact]
        · intro u hu hactive hexp
          unfold codeRecord at hu
          rw [hsc] at hu
          simp only [Option.some_bind] at hu
          rw [hurl] at hu
          injection hu with hu
          subst hu
          rcases hact with h | h
          · rw [hactive] at h
            exact absurd h (by simp)
          · exact absurd h hexp
      · simp [getUrlByShortCode, codeRecord, hsc, hurl, hact]

def c3Rec : ShortenedURL :=
  { id := "id1", originalUrl := "https://example.com", shortCode := "abc",
    shortUrl := "o/abc", createdAt := 0, expiresAt := 100,
    isActive := true, clickCount := 0, clicks := [] }

def c3State : URLServiceState :=
  { urls := [("id1", c3Rec)], shortCodeToId := [("abc", "id1")] }

/-- Witness for C3: on a concrete registry, an unknown code is absent, and a
known active unexpired code resolves to its record. -/
theorem lookup_absent_characterization_witness :
    (getUrlByShortCode c3State 0 "nope" = none) ∧
    getUrlByShortCode c3State 0 "abc" = some c3Rec :=
  ⟨(lookup_absent_characterization c3State 0 "nope").1.mpr (Or.inl (by rfl)),
   (lookup_absent_characterization c3State 0 "abc").2 c3Rec (by rfl) (by rfl) (by decide)⟩

/-- C5: `recordClick` on a code whose lookup fails returns `false` and leaves
the registry unchanged; on a code whose lookup succeeds it returns `true` and
replaces that record (at its id) with one whose `clickCount` grew by exactly 1
and whose `clicks` grew by exactly the one `ClickEvent` of this call, carrying
the masked IP placeholder, the fixed jurisdiction string, and the current
timestamp. -/
theorem recordClick_spec (s : URLServiceState) (now : Nat)
    (clickId shortCode userAgent referrer : String) :
    (getUrlByShortCode s now shortCode = none →
      recordClick s now clickId shortCode userAgent referrer = (false, s)) ∧
    (∀ url, getUrlByShortCode s now shortCode = some url →
      ∃ id, mapGet shortCode s.shortCodeToId = some id ∧ mapGet id s.urls = some url ∧
        recordClick s now clickId shortCode userAgent referrer
          = (true, { s with
              urls := mapSet id
                          ({ url with
                              clicks := url.clicks ++
                                [{ id := clickId, timestamp := now, userAgent := userAgent,
                                   ipAddress := "xxx.xxx.xxx.xxx", referrer := referrer,
                                   location := "Hyderabad/Secunderabad" }],
                              clickCount := url.clickCount + 1 })
                          s.urls })) := by
  cases hsc : mapGet shortCode s.shortCodeToId with
  | none => simp [getUrlByShortCode, recordClick, hsc]
  | some id0 =>
    cases hurl : mapGet id0 s.urls with
    | none => simp [getUrlByShortCode, recordClick, hsc, hurl]
    | some url =>
      by_cases hact : url.isActive = false ∨ url.expiresAt < now
      · simp [getUrlByShortCode, recordClick, hsc, hurl, hact]
      · constructor
        · simp [getUrlByShortCode, hsc, hurl, hact]
        · intro u hu
          simp only [getUrlByShortCode, hsc, hurl, if_neg hact, Option.some.injEq] at hu
          subst hu
          exact ⟨id0, rfl, hurl, by simp [recordClick, hsc, hurl, hact]⟩

/-- Witness for C5: on a concrete registry, a click on an unknown code is a
no-op returning `false`, and a click on a live code rewrites exactly that
record. -/
theorem recordClick_spec_witness :
    recordClick c1State 0 "ck1" "nope" "ua" "ref" = (false, c1State) ∧
    ∃ id, mapGet "abc" c1State.shortCodeToId = some id ∧
      mapGet id c1State.urls = some c1Rec ∧
      recordClick c1State 0 "ck1" "abc" "ua" "ref"
        = (true, { c1State with
            urls := mapSet id
                        ({ c1Rec with
                            clicks := c1Rec.clicks ++
                              [{ id := "ck1", timestamp := 0, userAgent := "ua",
                                 ipAddress := "xxx.xxx.xxx.xxx", referrer := "ref",
                                 location := "Hyderabad/Secunderabad" }],
                            clickCount := c1Rec.clickCount + 1 })
                        c1State.urls }) :=
  ⟨(recordClick_spec c1State 0 "ck1" "nope" "ua" "ref").1 (by rfl),
   (recordClick_spec c1State 0 "ck1" "abc" "ua" "ref").2 c1Rec (by rfl)⟩

/-- C6: one sweep tick keeps `shortCodeToId` identical and maps each `urls`
entry in place through `expireFlip`, which flips `isActive` to `false` exactly
on records that were active and expired and preserves every other field; hence
a record that was active but expired is afterwards absent from
`getUrlByShortCode` at the same instant, yet still listed by `getAllUrls`
with `isActive = false`. -/
theorem cleanup_sweep_spec (s : URLServiceState) (now : Nat) :
    (cleanupExpiredUrls s now).shortCodeToId = s.shortCodeToId ∧
    (cleanupExpiredUrls s now).urls = s.urls.map (fun p => (p.1, expireFlip now p.2)) ∧
    (∀ url : ShortenedURL,
      (expireFlip now url).isActive = (url.isActive && !decide (url.expiresAt < now)) ∧
      (expireFlip now url).id = url.id ∧
      (expireFlip now url).originalUrl = url.originalUrl ∧
      (expireFlip now url).shortCode = url.shortCode ∧
      (expireFlip now url).shortUrl = url.shortUrl ∧
      (expireFlip now url).createdAt = url.createdAt ∧
      (expireFlip now url).expiresAt = url.expiresAt ∧
      (expireFlip now url).clickCount = url.clickCount ∧
      (expireFlip now url).clicks = url.clicks) ∧
    (∀ code url, codeRecord s code = some url → url.isActive = true →
      url.expiresAt < now →
      getUrlByShortCode (cleanupExpiredUrls s now) now code = none ∧
      expireFlip now url ∈ getAllUrls (cleanupExpiredUrls s now) ∧
      (expireFlip now url).isActive = false) := by
  refine ⟨rfl, rfl, ?_, ?_⟩
  · intro url
    unfold expireFlip
    by_cases h : url.expiresAt < now ∧ url.isActive
    · obtain ⟨h1, h2⟩ := h
      simp [if_pos (⟨h1, h2⟩ : url.expiresAt < now ∧ url.isActive), h1, h2]
    · rw [if_neg h]
      refine ⟨?_, rfl, rfl, rfl, rfl, rfl, rfl, rfl, rfl⟩
      by_cases h1 : url.expiresAt < now
      · have h2 : url.isActive = false := by
          cases hb : url.isActive
          · rfl
          · exact absurd ⟨h1, by simp [hb]⟩ h
        simp [h2]
      · simp [h1]
  · intro code url hcr hact hexp
    obtain ⟨id0, hsc, hurl⟩ :
        ∃ id0, mapGet code s.shortCodeToId = some id0 ∧ mapGet id0 s.urls = some url := by
      unfold codeRecord at hcr
      cases hsc : mapGet code s.shortCodeToId with
      | none => rw [hsc] at hcr; simp at hcr
      | some id0 =>
        rw [hsc] at hcr
        simp only [Option.some_bind] at hcr
        exact ⟨id0, rfl, hcr⟩
    have hflip : expireFlip now url = { url with isActive := false } := by
      unfold expireFlip
      rw [if_pos ⟨hexp, by simp [hact]⟩]
    refine ⟨?_, ?_, by rw [hflip]⟩
    · simp [getUrlByShortCode, cleanupExpiredUrls, hsc, mapGet_map_snd, hurl, hflip]
    · have hmem : expireFlip now url ∈ (cleanupExpiredUrls s now).urls.map Prod.snd := by
        have hin : (id0, url) ∈ s.urls := mapGet_mem hurl
        simp only [cleanupExpiredUrls, List.map_map, List.mem_map]
        exact ⟨(id0, url), hin, rfl⟩
      simpa [getAllUrls, List.mem_mergeSort] using hmem

def expiredRec : ShortenedURL :=
  { id := "id1", originalUrl := "https://example.com/a", shortCode := "gen123",
    shortUrl := "o/gen123", createdAt := 0, expiresAt := 60000,
    isActive := true, clickCount := 0, clicks := [] }

def expiredState : URLServiceState :=
  { urls := [("id1", expiredRec)], shortCodeToId := [("gen123", "id1")] }

/-- Witness for C6 (Scenario A shape): a record whose minute-long TTL has
passed is deactivated by the sweep, vanishes from lookup, and stays listed. -/
theorem cleanup_sweep_spec_witness :
    getUrlByShortCode (cleanupExpiredUrls expiredState 61000) 61000 "gen123" = none ∧
    expireFlip 61000 expiredRec ∈ getAllUrls (cleanupExpiredUrls expiredState 61000) ∧
    (expireFlip 61000 expiredRec).isActive = false :=
  (cleanup_sweep_spec expiredState 61000).2.2.2 "gen123" expiredRec (by rfl) (by rfl) (by decide)

/-- C7 counterexample: `"a b javascript:c"` matches the `javascript:`
blocklist pattern but does not parse as an absolute URL, and `validateUrl`
then reports only `'Invalid URL format'` — the malicious-content violation is
not reported, because the pattern check sits inside the `try` block and is
skipped when `new URL` throws. -/
theorem validateUrl_malicious_unparsed_counterexample :
    maliciousPatterns.any (fun pat => containsCI "a b javascript:c" pat) = true ∧
    urlProtocol "a b javascript:c" = none ∧
    validateUrl "a b javascript:c" = ⟨false, ["Invalid URL format"]⟩ ∧
    "URL contains potentially malicious content" ∉
      (validateUrl "a b javascript:c").errors := by
  refine ⟨by decide, by decide, by decide, by decide⟩

/-- C7 (amended): for every input that the platform parser accepts as an
absolute URL and that matches a blocklisted dangerous-scheme pattern,
`validateUrl` reports the malicious-content violation, and the violations
accumulate: a non-http(s) protocol violation is reported alongside it. -/
theorem validateUrl_malicious_accumulates (url protocol : String)
    (hparse : urlProtocol url = some protocol)
    (hmal : maliciousPatterns.any (fun pat => containsCI url pat) = true) :
    "URL contains potentially malicious content" ∈ (validateUrl url).errors ∧
    (["http:", "https:"].contains protocol = false →
      "URL must use HTTP or HTTPS protocol" ∈ (validateUrl url).errors) := by
  have htrim : ¬ jsTrim url = "" := by
    intro h
    unfold urlProtocol at hparse
    rw [h] at hparse
    simp at hparse
  unfold validateUrl
  rw [if_neg htrim, hparse]
  by_cases hpr : ["http:", "https:"].contains protocol <;> simp [hpr, hmal]

/-- Witness for C7: `"javascript:alert(1)"` parses (scheme `javascript:`),
matches the blocklist, and receives both the protocol violation and the
malicious-content violation. -/
theorem validateUrl_malicious_accumulates_witness :
    "URL contains potentially malicious content" ∈
      (validateUrl "javascript:alert(1)").errors ∧
    "URL must use HTTP or HTTPS protocol" ∈
      (validateUrl "javascript:alert(1)").errors :=
  ⟨(validateUrl_malicious_accumulates "javascript:alert(1)" "javascript:"
      (by decide) (by decide)).1,
   (validateUrl_malicious_accumulates "javascript:alert(1)" "javascript:"
      (by decide) (by decide)).2 (by decide)⟩

/-- C8 counterexample: the single-space code is non-empty and of length 1
(outside `[3,20]`), yet `validateShortCode` accepts it with no errors,
because every check is guarded by `if (shortCode.trim())`. -/
theorem validateShortCode_blank_counterexample :
    (" " : String) ≠ "" ∧ (" " : String).length < 3 ∧
    validateShortCode " " = ⟨true, []⟩ := by
  refine ⟨by decide, by decide, by decide⟩

/-- C8 (amended): `validateShortCode` accepts with no errors every code that
is blank after trimming (blank means auto-generate); for every code with
non-blank trim it reports a violation exactly when the (untrimmed) length is
outside `[3,20]`, or some character falls outside letters/digits/hyphen/
underscore, or the code case-insensitively equals a reserved word; and
`isValid` is `true` exactly when no violation was reported. -/
theorem validateShortCode_characterization (code : String) :
    (jsTrim code = "" → validateShortCode code = ⟨true, []⟩) ∧
    (jsTrim code ≠ "" →
      ((validateShortCode code).errors ≠ [] ↔
        (code.length < 3 ∨ 20 < code.length) ∨
        (¬ code.data.all shortCodeCharOk = true) ∨
        reservedWords.contains (jsToLower code) = true)) ∧
    ((validateShortCode code).isValid = true ↔ (validateShortCode code).errors = []) := by
  refine ⟨?_, ?_, ?_⟩
  · intro h
    simp [validateShortCode, h]
  · intro h
    have hdata : code.data ≠ [] := by
      intro hd
      apply h
      have hcode : code = "" := by
        cases code with
        | mk d =>
          simp only at hd
          rw [hd]
      rw [hcode]
      rfl
    unfold validateShortCode
    rw [if_neg h]
    by_cases h1 : code.length < 3 ∨ code.length > 20 <;>
      by_cases h2 : code.data.all shortCodeCharOk <;>
        by_cases h3 : reservedWords.contains (jsToLower code) = true <;>
          simp [h1, h2, h3, hdata]
  · unfold validateShortCode
    by_cases h : jsTrim code = "" <;> simp [h, List.length_eq_zero]

/-- Witness for C8: a blank (whitespace-only) code passes untouched, and a
length-2 code is rejected. -/
theorem validateShortCode_characterization_witness :
    validateShortCode " " = ⟨true, []⟩ ∧
    (validateShortCode "ab").errors ≠ [] :=
  ⟨(validateShortCode_characterization " ").1 (by decide),
   ((validateShortCode_characterization "ab").2.1 (by decide)).mpr
     (Or.inl (Or.inl (by decide)))⟩

theorem charAt_spec (s : String) (i : Nat) (h : i < s.data.length) :
    (charAt s i).length = 1 ∧ (charAt s i).data ⊆ s.data := by
  unfold charAt
  rw [List.get?_eq_get h]
  constructor
  · rfl
  · intro c hc
    have hcc : c = s.data.get ⟨i, h⟩ := by
      simpa [String.singleton] using hc
    rw [hcc]
    exact List.get_mem _ _ _

/-- C10: supplying the empty string as the custom code is, by the truthiness
fallback `customShortCode || generateShortCode()`, identical to supplying no
custom code at all; the resolved code is the generated one, which (as
`Math.floor(Math.random() * 62)` always lies in `[0, 61]`) has exactly 6
characters, all drawn from the mixed-case alphanumeric alphabet. -/
theorem empty_custom_code_generates (s : URLServiceState) (now : Nat) (id : String)
    (rand : Nat → Nat) (origin originalUrl : String) (expiryMinutes : Nat) :
    shortenUrl s now id rand origin originalUrl (some "") expiryMinutes
      = shortenUrl s now id rand origin originalUrl none expiryMinutes ∧
    resolveShortCode (some "") rand = generateShortCode rand ∧
    ((∀ i, i < 6 → rand i < 62) →
      (generateShortCode rand).length = 6 ∧
      ∀ c ∈ (generateShortCode rand).data, c ∈ charsString.data) := by
  refine ⟨rfl, rfl, ?_⟩
  intro h6
  have hlen62 : charsString.data.length = 62 := by decide
  have hb : ∀ i, i < 6 → rand i < charsString.data.length := by
    intro i hi
    rw [hlen62]
    exact h6 i hi
  have e0 := charAt_spec charsString (rand 0) (hb 0 (by omega))
  have e1 := charAt_spec charsString (rand 1) (hb 1 (by omega))
  have e2 := charAt_spec charsString (rand 2) (hb 2 (by omega))
  have e3 := charAt_spec charsString (rand 3) (hb 3 (by omega))
  have e4 := charAt_spec charsString (rand 4) (hb 4 (by omega))
  have e5 := charAt_spec charsString (rand 5) (hb 5 (by omega))
  constructor
  · unfold generateShortCode
    rw [show List.range 6 = [0, 1, 2, 3, 4, 5] from rfl]
    simp only [List.map_cons, List.map_nil, List.foldl_cons, List.foldl_nil]
    simp [String.length_append, e0.1, e1.1, e2.1, e3.1, e4.1, e5.1]
  · intro c hc
    unfold generateShortCode at hc
    rw [show List.range 6 = [0, 1, 2, 3, 4, 5] from rfl] at hc
    simp only [List.map_cons, List.map_nil, List.foldl_cons, List.foldl_nil,
      String.data_append, List.mem_append] at hc
    rcases hc with ((((((hc | hc) | hc) | hc) | hc) | hc) | hc)
    · exact absurd hc (by simp)
    · exact e0.2 hc
    · exact e1.2 hc
    · exact e2.2 hc
    · exact e3.2 hc
    · exact e4.2 hc
    · exact e5.2 hc

/-- Witness for C10: with the constant random source `0`, the empty custom
code call coincides with the no-custom-code call and yields a 6-character
code. -/
theorem empty_custom_code_generates_witness :
    shortenUrl emptyState 0 "id1" (fun _ => 0) "o" "https://example.com" (some "") 30
      = shortenUrl emptyState 0 "id1" (fun _ => 0) "o" "https://example.com" none 30 ∧
    (generateShortCode (fun _ => 0)).length = 6 :=
  ⟨(empty_custom_code_generates emptyState 0 "id1" (fun _ => 0) "o"
      "https://example.com" 30).1,
   ((empty_custom_code_generates emptyState 0 "id1" (fun _ => 0) "o"
      "https://example.com" 30).2.2 (fun i _ => by decide)).1⟩

/-- `getAllUrls` lists exactly the stored records, in non-increasing
`createdAt` order (newest first).  The snapshot/aliasing half of the listing
behaviour — that callers may mutate the returned array and the record objects
in it — concerns JS reference semantics and has no counterpart in this
pure-value model. -/
theorem getAllUrls_complete_sorted (s : URLServiceState) :
    (∀ url : ShortenedURL, url ∈ getAllUrls s ↔ url ∈ s.urls.map Prod.snd) ∧
    (getAllUrls s).Pairwise (fun a b => b.createdAt ≤ a.createdAt) := by
  constructor
  · intro url
    simp [getAllUrls, List.mem_mergeSort]
  · have h := @List.sorted_mergeSort ShortenedURL
      (fun a b => decide (b.createdAt ≤ a.createdAt))
      (fun a b c hab hbc =>
        decide_eq_true (Nat.le_trans (of_decide_eq_true hbc) (of_decide_eq_true hab)))
      (fun a b => by
        rcases Nat.le_total b.createdAt a.createdAt with h | h <;> simp [h])
      (s.urls.map Prod.snd)
    exact h.imp (fun hab => by simpa using hab)

end UrlShortener
